import Mathlib

/-!
Shallow embedding of `src/run_page/gpxtrackposter/track_loader.py`
(class `TrackLoader` and its helpers), with theorems about the
track-merging, filtering, scanning, loading and reconciliation logic.

Machine integers do not occur: Python timestamps are modelled as exact
integers (seconds), Python floats for track lengths as exact rationals.
Python strings are modelled as `String`, with the character-level
operations (`startswith`, `endswith`, `os.path` base-name and extension
splitting) defined over the underlying character lists.
-/

namespace WorkoutsPage

/-- A timezone-aware local instant, as used for `start_time_local` /
`end_time_local`.  `epoch` is the instant in seconds (differences of two
`datetime`s in Python give the same value via `total_seconds()`), and
`year` is the calendar year of the instant (read by the year filter). -/
structure LocalTime where
  epoch : Int
  year : Int
deriving DecidableEq

/-- The fields of `track.Track` that the loader logic reads or writes:
provenance file names, activity type, optional start time (Python `None`
is falsy), end time, length, and the `special` flag. -/
structure Track where
  file_names : List String
  type : String
  start_time_local : Option LocalTime
  end_time_local : LocalTime
  length : Rat
  special : Bool
deriving DecidableEq

/-- The epoch of a track's start time (`0` as an arbitrary default for an
absent start time; the merger is only ever run on tracks that passed the
filter, which removes tracks without a start time). -/
def startEpoch (t : Track) : Int :=
  match t.start_time_local with
  | some s => s.epoch
  | none => 0

/-- A well-formed track: its start time is set and does not lie after its
end time.  This is the Track invariant stated by the spec ("end time ≥
start time once set") and holds for every track produced by a parser. -/
def wfTrack (t : Track) : Prop :=
  t.start_time_local.isSome = true ∧ startEpoch t ≤ t.end_time_local.epoch

instance (t : Track) : Decidable (wfTrack t) :=
  inferInstanceAs (Decidable (_ ∧ _))

/-- Modelled from the spec: `Track.append` (the file `track.py` is not
among the given sources).  "absorb `t` into `lastAppended` (extend its end
time to `max(lastEnd, t.end)`, add its length, append its provenance)".
Python's `max(a, b)` returns its first argument on ties. -/
def Track.append (a t : Track) : Track :=
  { a with
    end_time_local :=
      if a.end_time_local.epoch < t.end_time_local.epoch then t.end_time_local
      else a.end_time_local
    length := a.length + t.length
    file_names := a.file_names ++ t.file_names }

/-- The sort key of `sorted(tracks, key=lambda t1: t1.start_time_local)`:
compare tracks by their start instant. -/
def startLE (a b : Track) : Prop :=
  startEpoch a ≤ startEpoch b

instance : DecidableRel startLE := fun a b =>
  inferInstanceAs (Decidable (startEpoch a ≤ startEpoch b))

instance : IsTotal Track startLE :=
  ⟨fun a b => Int.le_total (startEpoch a) (startEpoch b)⟩

instance : IsTrans Track startLE :=
  ⟨fun _ _ _ => Int.le_trans⟩

/-- The loop of `TrackLoader._merge_tracks` (lines 201-212): `acc` is the
`merged_tracks` list with its most recently appended element first, and
the first argument is the `last_end_time` variable.  A subsequent track is
absorbed into the last appended track when `0 < dt < 3600` and the types
agree; `last_end_time` is then set to the current input track's own
`end_time_local` in every branch.  (The `[]` case under `some` is
unreachable: `last_end_time` is only set after a track was appended.) -/
def mergeRun : Option LocalTime → List Track → List Track → List Track
  | _, acc, [] => acc.reverse
  | none, acc, t :: ts => mergeRun (some t.end_time_local) (t :: acc) ts
  | some le, acc, t :: ts =>
    match acc with
    | m :: rest =>
      if 0 < startEpoch t - le.epoch ∧ startEpoch t - le.epoch < 3600 ∧
          m.type = t.type then
        mergeRun (some t.end_time_local) (m.append t :: rest) ts
      else
        mergeRun (some t.end_time_local) (t :: m :: rest) ts
    | [] => mergeRun (some t.end_time_local) (t :: acc) ts

/-- `TrackLoader._merge_tracks`: sort by start time (Python's `sorted` is
stable; `List.insertionSort` is the stable sort of the library), then run
the merging loop. -/
def mergeTracks (tracks : List Track) : List Track :=
  mergeRun none [] (List.insertionSort startLE tracks)

/-- The condition under which the loop absorbs track `b` when `a` was the
input track processed immediately before it: the gap `startEpoch b -
a.end_time_local.epoch` lies strictly between `0` and `3600` seconds and
the types agree. -/
def mergePredicate (a b : Track) : Prop :=
  0 < startEpoch b - a.end_time_local.epoch ∧
    startEpoch b - a.end_time_local.epoch < 3600 ∧ a.type = b.type

instance (a b : Track) : Decidable (mergePredicate a b) :=
  inferInstanceAs (Decidable (_ ∧ _ ∧ _))

/-- Forward-recursion form of the merging loop: `cur` is the most recently
appended output track, `le` the `last_end_time` variable. -/
def mergeFwd : Track → LocalTime → List Track → List Track
  | cur, _, [] => [cur]
  | cur, le, t :: ts =>
    if 0 < startEpoch t - le.epoch ∧ startEpoch t - le.epoch < 3600 ∧
        cur.type = t.type then
      mergeFwd (cur.append t) t.end_time_local ts
    else
      cur :: mergeFwd t t.end_time_local ts

/-- The merging loop applied to an already sorted list. -/
def mergeSorted : List Track → List Track
  | [] => []
  | t :: ts => mergeFwd t t.end_time_local ts

/-- Number of input tracks the loop absorbs, given the track processed
immediately before the remaining input: one per adjacent input pair that
satisfies the merge condition of the code. -/
def absorbedCount : Track → List Track → Nat
  | _, [] => 0
  | p, t :: ts => (if mergePredicate p t then 1 else 0) + absorbedCount t ts

/-- Number of adjacent pairs of a list that satisfy the merge condition of
the code. -/
def adjacentAbsorbed : List Track → Nat
  | [] => 0
  | t :: ts => absorbedCount t ts

/-- Modelled from the spec: a merging loop in which the gap is measured
against "the end time of the most recently appended output track"
(including any extension from earlier absorptions) rather than against the
`last_end_time` variable of the code. -/
def mergeFwdHeadEnd : Track → List Track → List Track
  | cur, [] => [cur]
  | cur, t :: ts =>
    if 0 < startEpoch t - cur.end_time_local.epoch ∧
        startEpoch t - cur.end_time_local.epoch < 3600 ∧ cur.type = t.type then
      mergeFwdHeadEnd (cur.append t) ts
    else
      cur :: mergeFwdHeadEnd t ts

/-- Modelled from the spec: the merger with the gap measured against the
most recently appended output track's own (possibly extended) end time. -/
def mergeTracksHeadEnd (tracks : List Track) : List Track :=
  match List.insertionSort startLE tracks with
  | [] => []
  | t :: ts => mergeFwdHeadEnd t ts

/-- Total number of provenance entries over a list of tracks. -/
def provSum (l : List Track) : Nat :=
  (l.map fun t => t.file_names.length).sum

/-- Modelled from the spec: `YearRange` (the file `year_range.py` is not
among the given sources).  "an inclusive interval of calendar years",
unbounded by default. -/
structure YearRange where
  fromYear : Option Int
  toYear : Option Int
deriving DecidableEq

/-- Modelled from the spec: `YearRange.contains`, deciding whether a year
lies within the inclusive bounds (always true when unbounded). -/
def YearRange.containsYear (yr : YearRange) (y : Int) : Bool :=
  match yr.fromYear, yr.toYear with
  | some a, some b => decide (a ≤ y) && decide (y ≤ b)
  | _, _ => true

/-- Python `int()` applied to a float: truncation toward zero. -/
def pyInt (q : Rat) : Int :=
  q.num.tdiv q.den

/-- `TrackLoader._filter_tracks` (lines 180-195): drop a track whose
truncated length is `0`, whose start time is absent, or whose start year
is outside the year range; otherwise set its `special` flag to whether its
first provenance file name occurs among the special file names, and keep
it.  The source reads `t.file_names[0]`; tracks carry at least one
provenance entry (Track invariant), which makes `headD ""` faithful. -/
def filterTracks (special_file_names : List String) (year_range : YearRange) :
    List Track → List Track
  | [] => []
  | t :: ts =>
    if pyInt t.length = 0 then filterTracks special_file_names year_range ts
    else
      match t.start_time_local with
      | none => filterTracks special_file_names year_range ts
      | some s =>
        if year_range.containsYear s.year = false then
          filterTracks special_file_names year_range ts
        else
          { t with special := special_file_names.contains (t.file_names.headD "") }
            :: filterTracks special_file_names year_range ts

/-- The retention condition of the filter, as a single predicate: the
truncated length is nonzero, the start time is present, and its year lies
within the range. -/
def keepTrack (year_range : YearRange) (t : Track) : Bool :=
  decide (pyInt t.length ≠ 0) &&
    match t.start_time_local with
    | none => false
    | some s => year_range.containsYear s.year

/-- Outcome of one parser invocation `load_func(file_name)`: a track, a
`TrackLoadError`, or a failure of any other kind. -/
inductive LoadOutcome where
  | ok (t : Track)
  | loadError (msg : String)
  | fatal (msg : String)
deriving DecidableEq

def LoadOutcome.isFatal : LoadOutcome → Bool
  | .fatal _ => true
  | _ => false

def LoadOutcome.isLoadError : LoadOutcome → Bool
  | .loadError _ => true
  | _ => false

/-- Python `dict` assignment `m[k] = v`: replace in place when the key is
present, append otherwise (insertion order is preserved). -/
def dictInsert (m : List (String × Track)) (k : String) (v : Track) :
    List (String × Track) :=
  if m.any fun p => p.1 == k then m.map fun p => if p.1 == k then (k, v) else p
  else m ++ [(k, v)]

/-- The collection loop of `TrackLoader._load_data_tracks` (lines
227-235): walk the completed futures in completion order; a `TrackLoadError`
is logged and skipped, any other exception propagates (aborting the batch),
and a successfully parsed track is stored under its file name. -/
def loadDataTracksAux :
    List (String × Track) → List (String × LoadOutcome) →
      Except String (List (String × Track))
  | acc, [] => .ok acc
  | acc, (file_name, r) :: rest =>
    match r with
    | .ok t => loadDataTracksAux (dictInsert acc file_name t) rest
    | .loadError _ => loadDataTracksAux acc rest
    | .fatal e => .error e

/-- `TrackLoader._load_data_tracks`, abstracted over the parse outcomes:
the input list pairs each file name with the outcome of its parser
invocation, in completion order (`concurrent.futures.as_completed` yields
an arbitrary order, a permutation of the submissions). -/
def loadDataTracks (results : List (String × LoadOutcome)) :
    Except String (List (String × Track)) :=
  loadDataTracksAux [] results

/-- The successfully parsed entries of a batch, keyed by file name. -/
def okEntries (results : List (String × LoadOutcome)) : List (String × Track) :=
  results.filterMap fun p =>
    match p.2 with
    | .ok t => some (p.1, t)
    | _ => none

/-- Python `name.startswith(p)`, at character level. -/
def pyStartsWith (s p : String) : Bool :=
  s.data.take p.data.length == p.data

/-- Python `name.endswith(p)`, at character level. -/
def pyEndsWith (s p : String) : Bool :=
  s.data.drop (s.data.length - p.data.length) == p.data

/-- One directory entry as the scanner sees it: its name and whether it is
a regular file (`os.path.isfile`). -/
structure ScanEntry where
  name : String
  is_file : Bool
deriving DecidableEq

/-- A directory as the scanner sees it: whether the path is a directory at
all (`os.path.isdir`) and the entries `os.listdir` yields. -/
structure ScanDir where
  is_dir : Bool
  entries : List ScanEntry
deriving DecidableEq

/-- `TrackLoader._list_data_files` (lines 260-273): fail with
`ParameterError` when the path is not a directory; otherwise yield, for
every listed entry that is not hidden, not in the synced-file set, has the
requested suffix and is a regular file, the joined path.  The synced-file
set comes from the external `load_synced_file_list()` and is passed in
here; `os.path.abspath` does not change which entries are produced and the
joined path is modelled as `dir_path ++ "/" ++ name`. -/
def listDataFiles (synced_files : List String) (dir_path : String)
    (d : ScanDir) (file_suffix : String) : Except String (List String) :=
  if d.is_dir = false then .error ("Not a directory: " ++ dir_path)
  else
    .ok (d.entries.filterMap fun e =>
      if pyStartsWith e.name "." then none
      else if synced_files.contains e.name then none
      else if pyEndsWith e.name ("." ++ file_suffix) && e.is_file then
        some (dir_path ++ "/" ++ e.name)
      else none)

/-- The three registered single-file parsers. -/
inductive ParserKind where
  | gpx
  | tcx
  | fit
deriving DecidableEq

/-- `self.load_func_dict` as built in `TrackLoader.__init__`. -/
def load_func_dict : List (String × ParserKind) :=
  [("gpx", ParserKind.gpx), ("tcx", ParserKind.tcx), ("fit", ParserKind.fit)]

/-- Python `dict.get(k, default)` over an association list. -/
def dictGetD (m : List (String × ParserKind)) (k : String) (dflt : ParserKind) :
    ParserKind :=
  match m.find? fun p => p.1 == k with
  | some p => p.2
  | none => dflt

/-- The parser chosen by `load_tracks`:
`self.load_func_dict.get(file_suffix, load_gpx_file)` (line 89). -/
def selectLoadFunc (file_suffix : String) : ParserKind :=
  dictGetD load_func_dict file_suffix ParserKind.gpx

/-- The configuration attributes of `TrackLoader` that `load_tracks`
reads. -/
structure LoaderConfig where
  min_length : Rat
  special_file_names : List String
  year_range : YearRange

/-- The pipeline of `TrackLoader.load_tracks` (lines 81-100) with the
parser fixed: scan the directory, parse every file with the given parser
(the environment `parse` supplies each invocation's outcome), collect the
results, filter, merge, and drop tracks shorter than `min_length`. -/
def loadTracksUsing (cfg : LoaderConfig) (parse : ParserKind → String → LoadOutcome)
    (synced_files : List String) (dir_path : String) (d : ScanDir)
    (file_suffix : String) (pk : ParserKind) : Except String (List Track) :=
  match listDataFiles synced_files dir_path d file_suffix with
  | .error e => .error e
  | .ok file_names =>
    match loadDataTracks (file_names.map fun f => (f, parse pk f)) with
    | .error e => .error e
    | .ok loaded =>
      .ok ((mergeTracks (filterTracks cfg.special_file_names cfg.year_range
        (loaded.map Prod.snd))).filter fun t => decide (cfg.min_length ≤ t.length))

/-- `TrackLoader.load_tracks`: the same pipeline with the parser selected
from the file suffix via `load_func_dict.get`. -/
def loadTracks (cfg : LoaderConfig) (parse : ParserKind → String → LoadOutcome)
    (synced_files : List String) (dir_path : String) (d : ScanDir)
    (file_suffix : String) : Except String (List Track) :=
  loadTracksUsing cfg parse synced_files dir_path d file_suffix
    (selectLoadFunc file_suffix)

/-- `os.path.basename`, at character level: the part after the last path
separator. -/
def baseNameChars : List Char → List Char :=
  List.foldl (fun acc c => if c = '/' then [] else acc ++ [c]) []

/-- The root of `os.path.splitext`, at character level: everything before
the last dot, the whole name when there is no dot.  (Python keeps a purely
leading dot with the root; such hidden names never reach this function,
the scanner having excluded them.) -/
def splitextRoot (l : List Char) : List Char :=
  match (l.reverse.dropWhile fun c => c ≠ '.') with
  | [] => l
  | _ :: rest => rest.reverse

/-- The activity identifier of a file path:
`os.path.splitext(os.path.basename(x))[0]` (lines 106-107). -/
def activityId (path : String) : String :=
  ⟨splitextRoot (baseNameChars path.data)⟩

/-- The identifier partition computed by `TrackLoader.load_tracks_gpxfit`
(lines 110-112) from the two directory listings: `fitgpxid` is the
intersection of the fit and gpx identifier sets, `fituniqid` and
`gpxuniqid` the respective differences.  Returned as (fit-only, gpx-only,
both). -/
def reconcileIds (fit_file_names gpx_file_names : List String) :
    Finset String × Finset String × Finset String :=
  (((fit_file_names.map activityId).toFinset \
      ((fit_file_names.map activityId).toFinset ∩
        (gpx_file_names.map activityId).toFinset)),
   ((gpx_file_names.map activityId).toFinset \
      ((fit_file_names.map activityId).toFinset ∩
        (gpx_file_names.map activityId).toFinset)),
   ((fit_file_names.map activityId).toFinset ∩
      (gpx_file_names.map activityId).toFinset))

/-- A run from epoch 0 to 100, length 500, one provenance entry. -/
def trkA1 : Track :=
  { file_names := ["a1.gpx"], type := "Run", start_time_local := some ⟨0, 2020⟩,
    end_time_local := ⟨100, 2020⟩, length := 500, special := false }

/-- A run starting exactly when `trkA1` ends (gap `0`). -/
def trkB1 : Track :=
  { file_names := ["b1.gpx"], type := "Run", start_time_local := some ⟨100, 2020⟩,
    end_time_local := ⟨200, 2020⟩, length := 500, special := false }

/-- A run from epoch 0 to 600. -/
def trkC1a : Track :=
  { file_names := ["c1a.gpx"], type := "Run", start_time_local := some ⟨0, 2020⟩,
    end_time_local := ⟨600, 2020⟩, length := 500, special := false }

/-- A run starting 600 seconds after `trkC1a` ends. -/
def trkC1b : Track :=
  { file_names := ["c1b.gpx"], type := "Run", start_time_local := some ⟨1200, 2020⟩,
    end_time_local := ⟨1800, 2020⟩, length := 500, special := false }

/-- A run from epoch 0 to 1000. -/
def trkA6 : Track :=
  { file_names := ["a6.gpx"], type := "Run", start_time_local := some ⟨0, 2021⟩,
    end_time_local := ⟨1000, 2021⟩, length := 300, special := false }

/-- A run starting exactly when `trkA6` ends (gap `0`). -/
def trkB6 : Track :=
  { file_names := ["b6.gpx"], type := "Run", start_time_local := some ⟨1000, 2021⟩,
    end_time_local := ⟨2000, 2021⟩, length := 300, special := false }

/-- A ride from epoch 0 to 500. -/
def trkW2a : Track :=
  { file_names := ["w2a.fit"], type := "Ride", start_time_local := some ⟨0, 2022⟩,
    end_time_local := ⟨500, 2022⟩, length := 700, special := false }

/-- A ride starting 100 seconds after `trkW2a` ends. -/
def trkW2b : Track :=
  { file_names := ["w2b.fit"], type := "Ride", start_time_local := some ⟨600, 2022⟩,
    end_time_local := ⟨900, 2022⟩, length := 700, special := false }

/-- A run from epoch 0 to 300. -/
def trkW6a : Track :=
  { file_names := ["w6a.gpx"], type := "Run", start_time_local := some ⟨0, 2023⟩,
    end_time_local := ⟨300, 2023⟩, length := 400, special := false }

/-- A walk starting 50 seconds after `trkW6a` ends (a type change). -/
def trkW6b : Track :=
  { file_names := ["w6b.gpx"], type := "Walk", start_time_local := some ⟨350, 2023⟩,
    end_time_local := ⟨700, 2023⟩, length := 400, special := false }

/-- A run from epoch 0 to 200. -/
def trkW7a : Track :=
  { file_names := ["w7a.gpx"], type := "Run", start_time_local := some ⟨0, 2024⟩,
    end_time_local := ⟨200, 2024⟩, length := 250, special := false }

/-- A run starting 100 seconds after `trkW7a` ends. -/
def trkW7b : Track :=
  { file_names := ["w7b.gpx"], type := "Run", start_time_local := some ⟨300, 2024⟩,
    end_time_local := ⟨600, 2024⟩, length := 250, special := false }

/-- A hike from epoch 0 to 400, one provenance entry. -/
def trkW8a : Track :=
  { file_names := ["w8a.gpx"], type := "Hike", start_time_local := some ⟨0, 2025⟩,
    end_time_local := ⟨400, 2025⟩, length := 800, special := false }

/-- A hike starting 200 seconds after `trkW8a` ends, one provenance
entry. -/
def trkW8b : Track :=
  { file_names := ["w8b.gpx"], type := "Hike", start_time_local := some ⟨600, 2025⟩,
    end_time_local := ⟨1000, 2025⟩, length := 800, special := false }

/-- The rational number one half (written through the constructor so that
concrete evaluation stays within kernel reduction). -/
def halfRat : Rat := ⟨1, 2, by decide, by decide⟩

/-- A track of length one half: positive, but truncated to `0` by
Python's `int()`. -/
def trkHalf : Track :=
  { file_names := ["half.gpx"], type := "Run", start_time_local := some ⟨0, 2020⟩,
    end_time_local := ⟨100, 2020⟩, length := halfRat, special := false }

/-- A valid run in year 2019 with length 5, provenance `special.gpx`. -/
def trkF1 : Track :=
  { file_names := ["special.gpx"], type := "Run", start_time_local := some ⟨0, 2019⟩,
    end_time_local := ⟨100, 2019⟩, length := 5, special := false }

/-- A track without a start time. -/
def trkF2 : Track :=
  { file_names := ["nostart.gpx"], type := "Run", start_time_local := none,
    end_time_local := ⟨100, 2019⟩, length := 5, special := false }

/-- A valid run in year 2010 (outside the example year range). -/
def trkF3 : Track :=
  { file_names := ["oldyear.gpx"], type := "Run", start_time_local := some ⟨0, 2010⟩,
    end_time_local := ⟨100, 2010⟩, length := 5, special := false }

/-- An example batch of parse outcomes: two successes and one
`TrackLoadError`. -/
def rsEx : List (String × LoadOutcome) :=
  [("a.gpx", LoadOutcome.ok trkA1), ("b.gpx", LoadOutcome.loadError "bad xml"),
   ("c.gpx", LoadOutcome.ok trkB1)]

/-- Scenario B of the spec: a directory of five files, one hidden, one of
which is in the synced-file set. -/
def scanEx : ScanDir :=
  { is_dir := true,
    entries := [⟨"a.gpx", true⟩, ⟨"b.gpx", true⟩, ⟨".foo.gpx", true⟩,
      ⟨"c.gpx", true⟩, ⟨"d.gpx", true⟩] }

/-- An example loader configuration. -/
def cfgEx : LoaderConfig :=
  { min_length := 100, special_file_names := [], year_range := ⟨none, none⟩ }

/-- An example parse environment: every invocation fails with a
`TrackLoadError`. -/
def parseEx : ParserKind → String → LoadOutcome :=
  fun _ _ => LoadOutcome.loadError "unparsed"

end WorkoutsPage

namespace WorkoutsPage

theorem mergeRun_eq_fwd (ts : List Track) :
    ∀ (cur : Track) (le : LocalTime) (rest : List Track),
      mergeRun (some le) (cur :: rest) ts = rest.reverse ++ mergeFwd cur le ts := by
  induction ts with
  | nil =>
    intro cur le rest
    simp [mergeRun, mergeFwd]
  | cons t ts ih =>
    intro cur le rest
    by_cases h : 0 < startEpoch t - le.epoch ∧ startEpoch t - le.epoch < 3600 ∧
        cur.type = t.type
    · simp only [mergeRun, mergeFwd, if_pos h]
      exact ih (cur.append t) t.end_time_local rest
    · simp only [mergeRun, mergeFwd, if_neg h]
      rw [ih t t.end_time_local (cur :: rest)]
      simp

theorem mergeTracks_eq (ts : List Track) :
    mergeTracks ts = mergeSorted (List.insertionSort startLE ts) := by
  unfold mergeTracks
  cases h : List.insertionSort startLE ts with
  | nil => simp [mergeRun, mergeSorted]
  | cons t ts' =>
    show mergeRun none [] (t :: ts') = mergeSorted (t :: ts')
    have h1 : mergeRun none [] (t :: ts') =
        mergeRun (some t.end_time_local) [t] ts' := rfl
    rw [h1, mergeRun_eq_fwd]
    simp [mergeSorted]

theorem append_type (a t : Track) : (a.append t).type = a.type := rfl

theorem append_start (a t : Track) :
    (a.append t).start_time_local = a.start_time_local := rfl

theorem append_startEpoch (a t : Track) :
    startEpoch (a.append t) = startEpoch a := by
  simp [startEpoch, Track.append]

theorem mergeFwd_cons (cur : Track) (le : LocalTime) (t : Track) (ts : List Track) :
    mergeFwd cur le (t :: ts) =
      if 0 < startEpoch t - le.epoch ∧ startEpoch t - le.epoch < 3600 ∧
          cur.type = t.type then
        mergeFwd (cur.append t) t.end_time_local ts
      else
        cur :: mergeFwd t t.end_time_local ts := rfl

theorem absorbedCount_cons (p t : Track) (ts : List Track) :
    absorbedCount p (t :: ts) =
      (if mergePredicate p t then 1 else 0) + absorbedCount t ts := rfl

theorem mergeFwd_length (ts : List Track) :
    ∀ (cur p : Track) (le : LocalTime), le = p.end_time_local →
      cur.type = p.type →
      (mergeFwd cur le ts).length + absorbedCount p ts = ts.length + 1 := by
  induction ts with
  | nil =>
    intro cur p le _ _
    simp [mergeFwd, absorbedCount]
  | cons t ts ih =>
    intro cur p le hle htype
    have hiff : (0 < startEpoch t - le.epoch ∧ startEpoch t - le.epoch < 3600 ∧
        cur.type = t.type) ↔ mergePredicate p t := by
      subst hle
      unfold mergePredicate
      rw [htype]
    by_cases h : 0 < startEpoch t - le.epoch ∧ startEpoch t - le.epoch < 3600 ∧
        cur.type = t.type
    · have hp : mergePredicate p t := hiff.mp h
      have := ih (cur.append t) t t.end_time_local rfl
        (by rw [append_type, htype]; exact hp.2.2)
      rw [mergeFwd_cons, if_pos h, absorbedCount_cons, if_pos hp, List.length_cons]
      omega
    · have hp : ¬ mergePredicate p t := fun hc => h (hiff.mpr hc)
      have := ih t t t.end_time_local rfl rfl
      rw [mergeFwd_cons, if_neg h, absorbedCount_cons, if_neg hp,
        List.length_cons, List.length_cons]
      omega

/-- C1 (amended): for every sorted input sequence, a subsequent track is
absorbed into the most recently appended output track exactly when the
time gap satisfies `0 < gap < 3600` seconds and the types agree — a zero
or negative gap (overlapping recordings) starts a new output entry, as
does a gap of at least 3600 seconds or a type change.  Extensionally: the
number of output entries is the number of input tracks minus the number of
adjacent input pairs satisfying the strict merge condition. -/
theorem mergeTracks_absorbed_length (ts : List Track)
    (hs : List.Sorted startLE ts) :
    (mergeTracks ts).length + adjacentAbsorbed ts = ts.length := by
  rw [mergeTracks_eq, List.Sorted.insertionSort_eq hs]
  cases ts with
  | nil => simp [mergeSorted, adjacentAbsorbed]
  | cons t ts' =>
    show (mergeFwd t t.end_time_local ts').length + absorbedCount t ts' =
      (t :: ts').length
    have := mergeFwd_length ts' t t t.end_time_local rfl rfl
    rw [List.length_cons]
    omega

/-- C1 (counterexample): two same-type runs with a gap of exactly `0`
seconds satisfy the claimed merge window `0 ≤ gap < 3600`, yet the merger
keeps them as two separate output entries (the code tests `0 < dt`). -/
theorem mergeTracks_zero_gap_not_merged :
    (0 ≤ startEpoch trkB1 - trkA1.end_time_local.epoch ∧
      startEpoch trkB1 - trkA1.end_time_local.epoch < 3600 ∧
      trkA1.type = trkB1.type) ∧
    mergeTracks [trkA1, trkB1] = [trkA1, trkB1] := by decide

/-- C1 (witness): two same-type runs 600 seconds apart are absorbed into
one output entry; the hypotheses of `mergeTracks_absorbed_length` hold at
this concrete input. -/
theorem mergeTracks_absorbed_length_witness :
    (mergeTracks [trkC1a, trkC1b]).length + adjacentAbsorbed [trkC1a, trkC1b] = 2 :=
  mergeTracks_absorbed_length [trkC1a, trkC1b] (by decide)

theorem mergeFwd_exists_head (ts : List Track) :
    ∀ (cur : Track) (le : LocalTime),
      ∃ hd tl, mergeFwd cur le ts = hd :: tl ∧ hd.type = cur.type ∧
        startEpoch hd = startEpoch cur := by
  induction ts with
  | nil =>
    intro cur le
    exact ⟨cur, [], rfl, rfl, rfl⟩
  | cons t ts ih =>
    intro cur le
    by_cases h : 0 < startEpoch t - le.epoch ∧ startEpoch t - le.epoch < 3600 ∧
        cur.type = t.type
    · obtain ⟨hd, tl, heq, ht, hs⟩ := ih (cur.append t) t.end_time_local
      refine ⟨hd, tl, ?_, ?_, ?_⟩
      · rw [mergeFwd_cons, if_pos h]
        exact heq
      · rw [ht, append_type]
      · rw [hs, append_startEpoch]
    · exact ⟨cur, mergeFwd t t.end_time_local ts,
        by rw [mergeFwd_cons, if_neg h], rfl, rfl⟩

theorem append_end_of_gap (cur t : Track) (ht : wfTrack t)
    (hgap : cur.end_time_local.epoch < startEpoch t) :
    (cur.append t).end_time_local = t.end_time_local := by
  have h1 : cur.end_time_local.epoch < t.end_time_local.epoch :=
    lt_of_lt_of_le hgap ht.2
  simp [Track.append, if_pos h1]

theorem wfTrack_append (cur t : Track) (hcur : wfTrack cur) (ht : wfTrack t)
    (hgap : cur.end_time_local.epoch < startEpoch t) :
    wfTrack (cur.append t) := by
  refine ⟨?_, ?_⟩
  · show (cur.append t).start_time_local.isSome = true
    rw [append_start]
    exact hcur.1
  · show startEpoch (cur.append t) ≤ (cur.append t).end_time_local.epoch
    rw [append_startEpoch, append_end_of_gap cur t ht hgap]
    exact le_of_lt (lt_of_le_of_lt hcur.2 (lt_of_lt_of_le hgap ht.2))

theorem mergeFwd_main (ts : List Track) :
    ∀ cur : Track, wfTrack cur → (∀ t ∈ ts, wfTrack t) →
      List.Sorted startLE (cur :: ts) →
      List.Sorted startLE (mergeFwd cur cur.end_time_local ts) ∧
      List.Chain' (fun a b => ¬ mergePredicate a b)
        (mergeFwd cur cur.end_time_local ts) ∧
      ∀ x ∈ mergeFwd cur cur.end_time_local ts, startEpoch cur ≤ startEpoch x := by
  induction ts with
  | nil =>
    intro cur _ _ _
    refine ⟨List.sorted_singleton _, List.chain'_singleton _, ?_⟩
    intro x hx
    have hx' : x ∈ [cur] := hx
    rw [List.mem_singleton] at hx'
    subst hx'
    exact le_refl _
  | cons t ts ih =>
    intro cur hcur hwf hsort
    have hwt : wfTrack t := hwf t (List.mem_cons_self t ts)
    have hwts : ∀ x ∈ ts, wfTrack x := fun x hx => hwf x (List.mem_cons_of_mem t hx)
    have hsort' : List.Sorted startLE (t :: ts) := (List.sorted_cons.mp hsort).2
    have hct : startLE cur t :=
      (List.sorted_cons.mp hsort).1 t (List.mem_cons_self t ts)
    by_cases h : 0 < startEpoch t - cur.end_time_local.epoch ∧
        startEpoch t - cur.end_time_local.epoch < 3600 ∧ cur.type = t.type
    · have hgap : cur.end_time_local.epoch < startEpoch t := by
        have := h.1
        omega
      have hend := append_end_of_gap cur t hwt hgap
      have hwapp := wfTrack_append cur t hcur hwt hgap
      have hsorted_app : List.Sorted startLE (cur.append t :: ts) := by
        rw [List.sorted_cons]
        refine ⟨?_, (List.sorted_cons.mp hsort').2⟩
        intro b hb
        have hcb : startLE cur b :=
          (List.sorted_cons.mp hsort).1 b (List.mem_cons_of_mem t hb)
        show startEpoch (cur.append t) ≤ startEpoch b
        rw [append_startEpoch]
        exact hcb
      obtain ⟨hs, hc, hb⟩ := ih (cur.append t) hwapp hwts hsorted_app
      rw [mergeFwd_cons, if_pos h, ← hend]
      refine ⟨hs, hc, ?_⟩
      intro x hx
      have := hb x hx
      rwa [append_startEpoch] at this
    · rw [mergeFwd_cons, if_neg h]
      obtain ⟨hs, hc, hb⟩ := ih t hwt hwts hsort'
      obtain ⟨hd, tl, heq, hdt, hds⟩ := mergeFwd_exists_head ts t t.end_time_local
      have hbound : ∀ x ∈ mergeFwd t t.end_time_local ts,
          startEpoch cur ≤ startEpoch x := fun x hx => le_trans hct (hb x hx)
      refine ⟨?_, ?_, ?_⟩
      · rw [List.sorted_cons]
        exact ⟨fun b hb' => hbound b hb', hs⟩
      · rw [heq, List.chain'_cons]
        refine ⟨?_, by rw [heq] at hc; exact hc⟩
        intro hp
        apply h
        have hp1 := hp.1
        have hp2 := hp.2.1
        have hp3 := hp.2.2
        rw [hds] at hp1 hp2
        rw [hdt] at hp3
        exact ⟨hp1, hp2, hp3⟩
      · intro x hx
        rw [List.mem_cons] at hx
        cases hx with
        | inl h' =>
          subst h'
          exact le_refl _
        | inr h' => exact hbound x h'

theorem mergeTracks_sorted_chain (ts : List Track) (hwf : ∀ t ∈ ts, wfTrack t) :
    List.Sorted startLE (mergeTracks ts) ∧
    List.Chain' (fun a b => ¬ mergePredicate a b) (mergeTracks ts) := by
  rw [mergeTracks_eq]
  have hwf' : ∀ t ∈ List.insertionSort startLE ts, wfTrack t := fun t ht =>
    hwf t ((List.mem_insertionSort startLE).mp ht)
  have hsorted := List.sorted_insertionSort startLE ts
  cases h : List.insertionSort startLE ts with
  | nil => simp [mergeSorted]
  | cons t ts' =>
    rw [h] at hwf' hsorted
    show List.Sorted startLE (mergeFwd t t.end_time_local ts') ∧
      List.Chain' (fun a b => ¬ mergePredicate a b) (mergeFwd t t.end_time_local ts')
    have hm := mergeFwd_main ts' t (hwf' t (List.mem_cons_self t ts'))
      (fun x hx => hwf' x (List.mem_cons_of_mem t hx)) hsorted
    exact ⟨hm.1, hm.2.1⟩

/-- C6 (amended): for well-formed input tracks the merger's output is
ordered by start time (non-strictly: two distinct tracks may share a start
time, and a zero gap keeps both) and no two adjacent output entries
satisfy the merge condition of the code (gap strictly between `0` and
`3600` seconds and equal type). -/
theorem mergeTracks_sorted_noAdjacent (ts : List Track)
    (hwf : ∀ t ∈ ts, wfTrack t) :
    List.Sorted startLE (mergeTracks ts) ∧
    List.Chain' (fun a b => ¬ mergePredicate a b) (mergeTracks ts) :=
  mergeTracks_sorted_chain ts hwf

/-- C6 (counterexample): two same-type runs separated by a gap of exactly
`0` seconds both survive as adjacent output entries, and this adjacent
pair satisfies the claimed merge predicate "gap in `[0, 3600)` and equal
type" — so the claimed post-condition fails (the code's predicate is the
strict `(0, 3600)`). -/
theorem mergeTracks_adjacent_claimed_pred :
    mergeTracks [trkA6, trkB6] = [trkA6, trkB6] ∧
    (0 ≤ startEpoch trkB6 - trkA6.end_time_local.epoch ∧
      startEpoch trkB6 - trkA6.end_time_local.epoch < 3600 ∧
      trkA6.type = trkB6.type) := by decide

/-- C6 (witness): the hypotheses of `mergeTracks_sorted_noAdjacent` hold
at a concrete two-track input (a run followed by a walk 50 seconds
later). -/
theorem mergeTracks_sorted_noAdjacent_witness :
    List.Sorted startLE (mergeTracks [trkW6a, trkW6b]) ∧
    List.Chain' (fun a b => ¬ mergePredicate a b) (mergeTracks [trkW6a, trkW6b]) :=
  mergeTracks_sorted_noAdjacent [trkW6a, trkW6b] (by decide)

theorem mergeFwd_of_chain (ts : List Track) :
    ∀ cur : Track,
      List.Chain' (fun a b => ¬ mergePredicate a b) (cur :: ts) →
      mergeFwd cur cur.end_time_local ts = cur :: ts := by
  induction ts with
  | nil =>
    intro cur _
    rfl
  | cons t ts ih =>
    intro cur hch
    have h1 : ¬ mergePredicate cur t := (List.chain'_cons.mp hch).1
    have h2 := (List.chain'_cons.mp hch).2
    have hcond : ¬ (0 < startEpoch t - cur.end_time_local.epoch ∧
        startEpoch t - cur.end_time_local.epoch < 3600 ∧ cur.type = t.type) :=
      fun hc => h1 ⟨hc.1, hc.2.1, hc.2.2⟩
    rw [mergeFwd_cons, if_neg hcond, ih t h2]

/-- C7: the merger is idempotent on well-formed tracks — re-merging the
merged output changes nothing, since the output is already sorted and no
adjacent output pair satisfies the merge condition. -/
theorem mergeTracks_idempotent (ts : List Track) (hwf : ∀ t ∈ ts, wfTrack t) :
    mergeTracks (mergeTracks ts) = mergeTracks ts := by
  obtain ⟨hs, hc⟩ := mergeTracks_sorted_chain ts hwf
  rw [mergeTracks_eq (mergeTracks ts), List.Sorted.insertionSort_eq hs]
  cases h : mergeTracks ts with
  | nil => rfl
  | cons t ts' =>
    rw [h] at hc
    show mergeFwd t t.end_time_local ts' = t :: ts'
    exact mergeFwd_of_chain ts' t hc

/-- C7 (witness): idempotence at a concrete two-track input whose tracks
the merger absorbs into one. -/
theorem mergeTracks_idempotent_witness :
    mergeTracks (mergeTracks [trkW7a, trkW7b]) = mergeTracks [trkW7a, trkW7b] :=
  mergeTracks_idempotent [trkW7a, trkW7b] (by decide)

theorem mergeFwdHeadEnd_cons (cur t : Track) (ts : List Track) :
    mergeFwdHeadEnd cur (t :: ts) =
      if 0 < startEpoch t - cur.end_time_local.epoch ∧
          startEpoch t - cur.end_time_local.epoch < 3600 ∧ cur.type = t.type then
        mergeFwdHeadEnd (cur.append t) ts
      else
        cur :: mergeFwdHeadEnd t ts := rfl

theorem mergeFwd_eq_headEnd (ts : List Track) :
    ∀ cur : Track, wfTrack cur → (∀ t ∈ ts, wfTrack t) →
      mergeFwd cur cur.end_time_local ts = mergeFwdHeadEnd cur ts := by
  induction ts with
  | nil =>
    intro cur _ _
    rfl
  | cons t ts ih =>
    intro cur hcur hwf
    have hwt : wfTrack t := hwf t (List.mem_cons_self t ts)
    have hwts : ∀ x ∈ ts, wfTrack x := fun x hx => hwf x (List.mem_cons_of_mem t hx)
    by_cases h : 0 < startEpoch t - cur.end_time_local.epoch ∧
        startEpoch t - cur.end_time_local.epoch < 3600 ∧ cur.type = t.type
    · have hgap : cur.end_time_local.epoch < startEpoch t := by
        have := h.1
        omega
      have hend := append_end_of_gap cur t hwt hgap
      have hwapp := wfTrack_append cur t hcur hwt hgap
      rw [mergeFwd_cons, if_pos h, ← hend, ih (cur.append t) hwapp hwts,
        mergeFwdHeadEnd_cons, if_pos h]
    · rw [mergeFwd_cons, if_neg h, ih t hwt hwts, mergeFwdHeadEnd_cons, if_neg h]

/-- C2: for well-formed tracks (start time present, start ≤ end), the gap
tested by the merger equals the start of the subsequent track minus the
end time of the most recently appended output track, including any
extension from earlier absorptions: the code's `last_end_time` variable
(the previous input track's own end) always coincides with the output
head's extended end time, so the merger computes the same output as the
variant that reads the output head's end directly.  On absorption the
output track's end time becomes `max(lastEnd, t.end)` by definition of
`Track.append` (modelled from the spec). -/
theorem mergeTracks_eq_headEnd (ts : List Track) (hwf : ∀ t ∈ ts, wfTrack t) :
    mergeTracks ts = mergeTracksHeadEnd ts := by
  rw [mergeTracks_eq]
  unfold mergeTracksHeadEnd
  have hwf' : ∀ t ∈ List.insertionSort startLE ts, wfTrack t := fun t ht =>
    hwf t ((List.mem_insertionSort startLE).mp ht)
  cases h : List.insertionSort startLE ts with
  | nil => rfl
  | cons t ts' =>
    rw [h] at hwf'
    show mergeFwd t t.end_time_local ts' = mergeFwdHeadEnd t ts'
    exact mergeFwd_eq_headEnd ts' t (hwf' t (List.mem_cons_self t ts'))
      (fun x hx => hwf' x (List.mem_cons_of_mem t hx))

/-- C2 (witness): the two merge formulations agree at a concrete
two-track input that the merger absorbs into one entry. -/
theorem mergeTracks_eq_headEnd_witness :
    mergeTracks [trkW2a, trkW2b] = mergeTracksHeadEnd [trkW2a, trkW2b] :=
  mergeTracks_eq_headEnd [trkW2a, trkW2b] (by decide)

theorem provSum_cons (t : Track) (ts : List Track) :
    provSum (t :: ts) = t.file_names.length + provSum ts := by
  simp [provSum]

theorem append_provLength (a t : Track) :
    (a.append t).file_names.length = a.file_names.length + t.file_names.length := by
  simp [Track.append]

theorem mergeFwd_provSum (ts : List Track) :
    ∀ (cur : Track) (le : LocalTime),
      provSum (mergeFwd cur le ts) = cur.file_names.length + provSum ts := by
  induction ts with
  | nil =>
    intro cur le
    show provSum [cur] = cur.file_names.length + provSum []
    simp [provSum]
  | cons t ts ih =>
    intro cur le
    by_cases h : 0 < startEpoch t - le.epoch ∧ startEpoch t - le.epoch < 3600 ∧
        cur.type = t.type
    · rw [mergeFwd_cons, if_pos h, ih (cur.append t) t.end_time_local,
        append_provLength, provSum_cons]
      omega
    · rw [mergeFwd_cons, if_neg h, provSum_cons, ih t t.end_time_local,
        provSum_cons]

theorem provSum_perm {l l' : List Track} (h : l.Perm l') :
    provSum l = provSum l' := by
  unfold provSum
  exact (h.map fun t => t.file_names.length).sum_eq

theorem mergeTracks_provSum (ts : List Track) :
    provSum (mergeTracks ts) = provSum ts := by
  rw [mergeTracks_eq]
  have hperm := List.perm_insertionSort startLE ts
  rw [← provSum_perm hperm]
  cases h : List.insertionSort startLE ts with
  | nil => rfl
  | cons t ts' =>
    show provSum (mergeFwd t t.end_time_local ts') = provSum (t :: ts')
    rw [mergeFwd_provSum, provSum_cons]

/-- C8: the merger conserves total provenance — when every input track
carries exactly one provenance entry, the provenance lists of the output
tracks together hold exactly one entry per input track. -/
theorem mergeTracks_provenance (ts : List Track)
    (h1 : ∀ t ∈ ts, t.file_names.length = 1) :
    provSum (mergeTracks ts) = ts.length := by
  rw [mergeTracks_provSum]
  induction ts with
  | nil => rfl
  | cons t ts ih =>
    rw [provSum_cons, h1 t (List.mem_cons_self t ts),
      ih fun x hx => h1 x (List.mem_cons_of_mem t hx), List.length_cons]
    omega

/-- C8 (witness): provenance conservation at a concrete two-track input
that the merger absorbs into one entry. -/
theorem mergeTracks_provenance_witness :
    provSum (mergeTracks [trkW8a, trkW8b]) = 2 :=
  mergeTracks_provenance [trkW8a, trkW8b] (by decide)

theorem filterTracks_cons (sp : List String) (yr : YearRange) (t : Track)
    (ts : List Track) :
    filterTracks sp yr (t :: ts) =
      if pyInt t.length = 0 then filterTracks sp yr ts
      else
        match t.start_time_local with
        | none => filterTracks sp yr ts
        | some s =>
          if yr.containsYear s.year = false then filterTracks sp yr ts
          else
            { t with special := sp.contains (t.file_names.headD "") }
              :: filterTracks sp yr ts := rfl

/-- C3 (amended): a track is retained by the filter exactly when its
length truncated to an integer (Python `int()`) is nonzero, its start time
is present, and the start year lies within the inclusive year range; every
retained track's `special` flag is set to whether its first provenance
file name is in the special-name set, and rejected tracks are merely
dropped.  (The hypothesis restricts to tracks with at least one provenance
entry — the Track invariant — since the source reads `t.file_names[0]`.) -/
theorem filterTracks_spec (sp : List String) (yr : YearRange) (ts : List Track)
    (hprov : ∀ t ∈ ts, t.file_names ≠ []) :
    filterTracks sp yr ts =
      (ts.filter (keepTrack yr)).map fun t =>
        { t with special := sp.contains (t.file_names.headD "") } := by
  induction ts with
  | nil => rfl
  | cons t ts ih =>
    have ih' := ih fun x hx => hprov x (List.mem_cons_of_mem t hx)
    rw [filterTracks_cons]
    by_cases h1 : pyInt t.length = 0
    · have hkt : keepTrack yr t = false := by
        simp [keepTrack, h1]
      rw [if_pos h1, ih', List.filter_cons, hkt]
      simp
    · rw [if_neg h1]
      cases hstart : t.start_time_local with
      | none =>
        have hkt : keepTrack yr t = false := by
          simp [keepTrack, hstart]
        rw [ih', List.filter_cons, hkt]
        simp
      | some s =>
        by_cases h2 : yr.containsYear s.year = false
        · have hkt : keepTrack yr t = false := by
            simp [keepTrack, hstart, h2]
          rw [ih', List.filter_cons, hkt]
          simp [h2]
        · have h2' : yr.containsYear s.year = true := by
            revert h2
            cases yr.containsYear s.year <;> simp
          have hkt : keepTrack yr t = true := by
            simp [keepTrack, hstart, h2', h1]
          rw [ih', List.filter_cons, hkt]
          simp [h2', hstart]

/-- C3 (counterexample): a track of length one half has positive length,
a start time, and a year inside the (unbounded) range, yet the filter
drops it: the code tests `int(t.length) == 0`, and `int(0.5) == 0`. -/
theorem filterTracks_positive_length_dropped :
    0 < trkHalf.length ∧ trkHalf.start_time_local.isSome = true ∧
    YearRange.containsYear ⟨none, none⟩ 2020 = true ∧
    filterTracks [] ⟨none, none⟩ [trkHalf] = [] := by decide

/-- C3 (witness): the filter characterization at a concrete input — one
valid special track, one track without a start time, one outside the year
range, one of length one half; only the first survives, with its `special`
flag set. -/
theorem filterTracks_spec_witness :
    filterTracks ["special.gpx"] ⟨some 2015, some 2020⟩
        [trkF1, trkF2, trkF3, trkHalf] =
      (([trkF1, trkF2, trkF3, trkHalf].filter
          (keepTrack ⟨some 2015, some 2020⟩)).map fun t =>
        { t with
          special := (["special.gpx"] : List String).contains
            (t.file_names.headD "") }) ∧
    filterTracks ["special.gpx"] ⟨some 2015, some 2020⟩
        [trkF1, trkF2, trkF3, trkHalf] = [{ trkF1 with special := true }] :=
  ⟨filterTracks_spec ["special.gpx"] ⟨some 2015, some 2020⟩
    [trkF1, trkF2, trkF3, trkHalf] (by decide), by decide⟩

theorem dictInsert_of_not_mem (m : List (String × Track)) (k : String) (v : Track)
    (h : ∀ p ∈ m, p.1 ≠ k) : dictInsert m k v = m ++ [(k, v)] := by
  unfold dictInsert
  rw [if_neg]
  intro hc
  rw [List.any_eq_true] at hc
  obtain ⟨p, hp, hbeq⟩ := hc
  exact h p hp (beq_iff_eq.mp hbeq)

theorem okEntries_cons_ok (n : String) (t : Track)
    (rs : List (String × LoadOutcome)) :
    okEntries ((n, LoadOutcome.ok t) :: rs) = (n, t) :: okEntries rs := rfl

theorem okEntries_cons_loadError (n msg : String)
    (rs : List (String × LoadOutcome)) :
    okEntries ((n, LoadOutcome.loadError msg) :: rs) = okEntries rs := rfl

theorem loadDataTracksAux_ok (rs : List (String × LoadOutcome)) :
    ∀ acc : List (String × Track),
      (∀ p ∈ rs, p.2.isFatal = false) →
      (∀ q ∈ acc, ∀ p ∈ rs, q.1 ≠ p.1) →
      (rs.map Prod.fst).Nodup →
      loadDataTracksAux acc rs = .ok (acc ++ okEntries rs) := by
  induction rs with
  | nil =>
    intro acc _ _ _
    show Except.ok acc = Except.ok (acc ++ okEntries [])
    rw [show okEntries [] = [] from rfl, List.append_nil]
  | cons hd rs ih =>
    obtain ⟨n, r⟩ := hd
    intro acc hnf hdisj hnodup
    have hnf' : ∀ p ∈ rs, p.2.isFatal = false := fun p hp =>
      hnf p (List.mem_cons_of_mem _ hp)
    have hnodup' : (rs.map Prod.fst).Nodup := by
      rw [List.map_cons, List.nodup_cons] at hnodup
      exact hnodup.2
    have hnotin : n ∉ rs.map Prod.fst := by
      rw [List.map_cons, List.nodup_cons] at hnodup
      exact hnodup.1
    cases r with
    | ok t =>
      show loadDataTracksAux (dictInsert acc n t) rs = _
      rw [dictInsert_of_not_mem acc n t
        (fun q hq => hdisj q hq (n, LoadOutcome.ok t) (List.mem_cons_self _ _))]
      rw [ih (acc ++ [(n, t)]) hnf' ?disj hnodup', okEntries_cons_ok,
        List.append_assoc, List.singleton_append]
      case disj =>
        intro q hq p hp
        rw [List.mem_append] at hq
        cases hq with
        | inl h' => exact hdisj q h' p (List.mem_cons_of_mem _ hp)
        | inr h' =>
          rw [List.mem_singleton] at h'
          subst h'
          intro hc
          have hc' : n = p.1 := hc
          exact hnotin (by rw [hc']; exact List.mem_map_of_mem Prod.fst hp)
    | loadError msg =>
      show loadDataTracksAux acc rs = _
      rw [ih acc hnf' (fun q hq p hp => hdisj q hq p (List.mem_cons_of_mem _ hp))
        hnodup', okEntries_cons_loadError]
    | fatal e =>
      have := hnf (n, LoadOutcome.fatal e) (List.mem_cons_self _ _)
      exact absurd this (by simp [LoadOutcome.isFatal])

theorem okEntries_length (rs : List (String × LoadOutcome))
    (hnf : ∀ p ∈ rs, p.2.isFatal = false) :
    (okEntries rs).length + rs.countP (fun p => p.2.isLoadError) = rs.length := by
  induction rs with
  | nil => rfl
  | cons hd rs ih =>
    obtain ⟨n, r⟩ := hd
    have ih' := ih fun p hp => hnf p (List.mem_cons_of_mem _ hp)
    cases r with
    | ok t =>
      have hval : ((n, LoadOutcome.ok t) : String × LoadOutcome).2.isLoadError
          = false := rfl
      rw [okEntries_cons_ok, List.countP_cons, hval, List.length_cons,
        List.length_cons]
      simp only [Bool.false_eq_true, if_false]
      omega
    | loadError msg =>
      have hval : ((n, LoadOutcome.loadError msg) : String × LoadOutcome).2.isLoadError
          = true := rfl
      rw [okEntries_cons_loadError, List.countP_cons, hval, List.length_cons]
      simp only [if_true]
      omega
    | fatal e =>
      have := hnf (n, LoadOutcome.fatal e) (List.mem_cons_self _ _)
      exact absurd this (by simp [LoadOutcome.isFatal])

theorem loadDataTracksAux_fatal (rs : List (String × LoadOutcome)) :
    ∀ acc : List (String × Track), (∃ p ∈ rs, p.2.isFatal = true) →
      ∃ e, loadDataTracksAux acc rs = .error e := by
  induction rs with
  | nil =>
    intro acc h
    obtain ⟨p, hp, _⟩ := h
    exact absurd hp (List.not_mem_nil p)
  | cons hd rs ih =>
    obtain ⟨n, r⟩ := hd
    intro acc h
    cases r with
    | ok t =>
      apply ih (dictInsert acc n t)
      obtain ⟨p, hp, hf⟩ := h
      rw [List.mem_cons] at hp
      cases hp with
      | inl h' =>
        subst h'
        exact absurd hf (by simp [LoadOutcome.isFatal])
      | inr h' => exact ⟨p, h', hf⟩
    | loadError msg =>
      apply ih acc
      obtain ⟨p, hp, hf⟩ := h
      rw [List.mem_cons] at hp
      cases hp with
      | inl h' =>
        subst h'
        exact absurd hf (by simp [LoadOutcome.isFatal])
      | inr h' => exact ⟨p, h', hf⟩
    | fatal e => exact ⟨e, rfl⟩

/-- C4: for a batch of parse outcomes with pairwise distinct file paths,
if no outcome is a failure of an unrecognized kind, the orchestrator
returns the mapping of exactly the successfully parsed files keyed by
path — `N − K` entries when `K` of the `N` invocations fail with a
`TrackLoadError` — and it does so for every completion order (any
permutation of the outcomes yields the same mapping up to order); if any
outcome is a failure of another kind, the batch aborts with an error. -/
theorem loadDataTracks_spec (results : List (String × LoadOutcome))
    (hnodup : (results.map Prod.fst).Nodup) :
    ((∀ p ∈ results, p.2.isFatal = false) →
      loadDataTracks results = .ok (okEntries results) ∧
      (okEntries results).length +
          results.countP (fun p => p.2.isLoadError) = results.length ∧
      ∀ rs, rs.Perm results →
        ∃ l, loadDataTracks rs = .ok l ∧ l.Perm (okEntries results)) ∧
    ((∃ p ∈ results, p.2.isFatal = true) →
      ∃ e, loadDataTracks results = .error e) := by
  constructor
  · intro hnf
    refine ⟨?_, okEntries_length results hnf, ?_⟩
    · have h := loadDataTracksAux_ok results [] hnf (by simp) hnodup
      rw [List.nil_append] at h
      exact h
    · intro rs hperm
      have hnodup' : (rs.map Prod.fst).Nodup :=
        ((hperm.map Prod.fst).nodup_iff).mpr hnodup
      have hnf' : ∀ p ∈ rs, p.2.isFatal = false := fun p hp =>
        hnf p (hperm.subset hp)
      refine ⟨okEntries rs, ?_, ?_⟩
      · have h := loadDataTracksAux_ok rs [] hnf' (by simp) hnodup'
        rw [List.nil_append] at h
        exact h
      · unfold okEntries
        exact hperm.filterMap _
  · intro h
    exact loadDataTracksAux_fatal results [] h

/-- C4 (witness): a concrete batch of three files of which one fails with
a `TrackLoadError` yields a mapping of exactly two entries and no abort. -/
theorem loadDataTracks_spec_witness :
    loadDataTracks rsEx = .ok (okEntries rsEx) ∧
    (okEntries rsEx).length + rsEx.countP (fun p => p.2.isLoadError) =
      rsEx.length ∧
    (okEntries rsEx).length = 2 := by
  have h := (loadDataTracks_spec rsEx (by decide)).1 (by decide)
  exact ⟨h.1, h.2.1, by decide⟩

theorem partition_sdiff_inter (A B : Finset String) :
    Disjoint (A \ (A ∩ B)) (B \ (A ∩ B)) ∧
    Disjoint (A \ (A ∩ B)) (A ∩ B) ∧
    Disjoint (B \ (A ∩ B)) (A ∩ B) ∧
    (A \ (A ∩ B)) ∪ (B \ (A ∩ B)) ∪ (A ∩ B) = A ∪ B := by
  refine ⟨?_, ?_, ?_, ?_⟩
  · rw [Finset.disjoint_left]
    intro a ha hb
    rw [Finset.mem_sdiff, Finset.mem_inter] at ha hb
    exact ha.2 ⟨ha.1, hb.1⟩
  · rw [Finset.disjoint_left]
    intro a ha hb
    rw [Finset.mem_sdiff] at ha
    exact ha.2 hb
  · rw [Finset.disjoint_left]
    intro a ha hb
    rw [Finset.mem_sdiff] at ha
    exact ha.2 hb
  · ext a
    simp only [Finset.mem_union, Finset.mem_sdiff, Finset.mem_inter]
    tauto

/-- C5: the three identifier sets computed by the reconciler (fit-only,
gpx-only, present-in-both) are pairwise disjoint and together cover
exactly the base-name identifiers occurring in either directory; on the
example directories `{1,2,3}.fit` and `{2,3,4}.gpx` they are `{1}`, `{4}`
and `{2,3}`. -/
theorem reconcileIds_partition (fit_file_names gpx_file_names : List String) :
    Disjoint (reconcileIds fit_file_names gpx_file_names).1
      (reconcileIds fit_file_names gpx_file_names).2.1 ∧
    Disjoint (reconcileIds fit_file_names gpx_file_names).1
      (reconcileIds fit_file_names gpx_file_names).2.2 ∧
    Disjoint (reconcileIds fit_file_names gpx_file_names).2.1
      (reconcileIds fit_file_names gpx_file_names).2.2 ∧
    (reconcileIds fit_file_names gpx_file_names).1 ∪
        (reconcileIds fit_file_names gpx_file_names).2.1 ∪
        (reconcileIds fit_file_names gpx_file_names).2.2 =
      (fit_file_names.map activityId).toFinset ∪
        (gpx_file_names.map activityId).toFinset ∧
    reconcileIds ["1.fit", "2.fit", "3.fit"] ["2.gpx", "3.gpx", "4.gpx"] =
      ({"1"}, {"4"}, {"2", "3"}) := by
  have h := partition_sdiff_inter (fit_file_names.map activityId).toFinset
    (gpx_file_names.map activityId).toFinset
  exact ⟨h.1, h.2.1, h.2.2.1, h.2.2.2, by decide⟩

theorem scanner_filterMap_eq (synced_files : List String)
    (dir_path file_suffix : String) (es : List ScanEntry) :
    (es.filterMap fun e =>
      if pyStartsWith e.name "." then none
      else if synced_files.contains e.name then none
      else if pyEndsWith e.name ("." ++ file_suffix) && e.is_file then
        some (dir_path ++ "/" ++ e.name)
      else none) =
    ((es.filter fun e =>
        e.is_file && pyEndsWith e.name ("." ++ file_suffix) &&
          !(pyStartsWith e.name ".") && !(synced_files.contains e.name)).map
      fun e => dir_path ++ "/" ++ e.name) := by
  induction es with
  | nil => rfl
  | cons e es ih =>
    rw [List.filterMap_cons, List.filter_cons]
    cases h1 : pyStartsWith e.name "." <;>
      cases h2 : synced_files.contains e.name <;>
      cases h3 : pyEndsWith e.name ("." ++ file_suffix) <;>
      cases h4 : e.is_file <;>
      simp_all

/-- C9: the scanner fails with the not-a-directory error exactly when the
path is not a directory, and otherwise yields the joined paths of exactly
those entries that are regular files with the requested suffix, are not
hidden, and are not in the synced-file set. -/
theorem listDataFiles_spec (synced_files : List String) (dir_path : String)
    (d : ScanDir) (file_suffix : String) :
    (d.is_dir = false →
      listDataFiles synced_files dir_path d file_suffix =
        .error ("Not a directory: " ++ dir_path)) ∧
    (d.is_dir = true →
      listDataFiles synced_files dir_path d file_suffix =
        .ok ((d.entries.filter fun e =>
            e.is_file && pyEndsWith e.name ("." ++ file_suffix) &&
              !(pyStartsWith e.name ".") && !(synced_files.contains e.name)).map
          fun e => dir_path ++ "/" ++ e.name)) := by
  constructor
  · intro h
    unfold listDataFiles
    rw [if_pos h]
  · intro h
    unfold listDataFiles
    rw [if_neg (by rw [h]; simp), scanner_filterMap_eq]

/-- C9 (witness): Scenario B — a directory of five files of which one is
hidden and one is in the synced-file set yields exactly the three
remaining paths. -/
theorem listDataFiles_spec_witness :
    listDataFiles ["b.gpx"] "/data" scanEx "gpx" =
      .ok ["/data/a.gpx", "/data/c.gpx", "/data/d.gpx"] := by
  have h := (listDataFiles_spec ["b.gpx"] "/data" scanEx "gpx").2 (by decide)
  rw [h]
  congr 1

/-- C10: for a file suffix that is none of the three registered formats,
`load_tracks` does not fail: `load_func_dict.get` falls back to the GPX
parser, and the whole pipeline behaves as if the GPX parser had been
selected explicitly. -/
theorem loadTracks_unknown_suffix (cfg : LoaderConfig)
    (parse : ParserKind → String → LoadOutcome) (synced_files : List String)
    (dir_path : String) (d : ScanDir) (file_suffix : String)
    (h : file_suffix ∉ (["gpx", "tcx", "fit"] : List String)) :
    selectLoadFunc file_suffix = ParserKind.gpx ∧
    loadTracks cfg parse synced_files dir_path d file_suffix =
      loadTracksUsing cfg parse synced_files dir_path d file_suffix
        ParserKind.gpx := by
  have h1 : (("gpx" : String) == file_suffix) = false := by
    rw [beq_eq_false_iff_ne]
    intro hc
    exact h (by rw [← hc]; exact List.mem_cons_self _ _)
  have h2 : (("tcx" : String) == file_suffix) = false := by
    rw [beq_eq_false_iff_ne]
    intro hc
    exact h (by rw [← hc]; simp)
  have h3 : (("fit" : String) == file_suffix) = false := by
    rw [beq_eq_false_iff_ne]
    intro hc
    exact h (by rw [← hc]; simp)
  have hsel : selectLoadFunc file_suffix = ParserKind.gpx := by
    unfold selectLoadFunc dictGetD load_func_dict
    simp [List.find?, h1, h2, h3]
  refine ⟨hsel, ?_⟩
  unfold loadTracks
  rw [hsel]

/-- C10 (witness): the fallback at the concrete unregistered suffix
`kml`. -/
theorem loadTracks_unknown_suffix_witness :
    selectLoadFunc "kml" = ParserKind.gpx ∧
    loadTracks cfgEx parseEx [] "/d" scanEx "kml" =
      loadTracksUsing cfgEx parseEx [] "/d" scanEx "kml" ParserKind.gpx :=
  loadTracks_unknown_suffix cfgEx parseEx [] "/d" scanEx "kml" (by decide)

end WorkoutsPage
